import Mathlib

/-!
Verification of the ERC-8004 agent identity registry
(`contracts/src/AgentIdentityRegistry.sol`) and of the backend auto-updater
service (`backend/src/services/updaterService.ts`), as a shallow embedding.

The registry is an ERC-721 (OpenZeppelin `ERC721URIStorage`) with a
monotone id counter, an empty-URI guard on `register`/`setAgentURI`, and an
on-chain key/value metadata store.  Addresses are natural numbers, with `0`
playing the role of `address(0)` exactly as in the ERC-721 storage encoding
(`_owners[id] = 0` means the token does not exist, `_tokenApprovals[id] = 0`
means no single approval).
-/

namespace ERC8004

/-- Principal addresses, modelled as naturals; `0` is `address(0)`. -/
abbrev Address := Nat

/-- `bytes` values of the metadata store, modelled as byte lists. -/
abbrev Bytes := List Nat

/-- Revert reasons of the registry operations. -/
inductive RegErr
  /-- `ERC721NonexistentToken`: a read or mutation named a token id with no
  owner. -/
  | NotFound
  /-- `"Not owner or approved"` (and the ERC-721 authorization reverts). -/
  | PermissionDenied
  /-- `"TokenURI cannot be empty"` / `"URI cannot be empty"`. -/
  | ValidationError
  /-- ERC-721 mint/transfer/approval involving the zero address. -/
  | InvalidReceiver
  deriving DecidableEq

/-- The full storage of `AgentIdentityRegistry`:
`_nextAgentId`, the inherited ERC-721 maps (`_owners`, `_tokenApprovals`,
`_operatorApprovals`), the `ERC721URIStorage` map `_tokenURIs`, and
`_metadata : agentId => key => value`. -/
structure Registry where
  nextAgentId : Nat
  owners : Nat → Address
  tokenApprovals : Nat → Address
  operatorApprovals : Address → Address → Bool
  tokenURIs : Nat → String
  metadata : Nat → String → Bytes

/-- Storage contents right after the constructor ran: `_nextAgentId = 1`,
all maps at their default values. -/
def Registry.init : Registry where
  nextAgentId := 1
  owners := fun _ => 0
  tokenApprovals := fun _ => 0
  operatorApprovals := fun _ _ => false
  tokenURIs := fun _ => ""
  metadata := fun _ _ => []

/-- ERC-721 `ownerOf`: reverts `ERC721NonexistentToken` when the owner slot
is zero, otherwise returns the owner. -/
def ownerOf (st : Registry) (tokenId : Nat) : Except RegErr Address :=
  if st.owners tokenId = 0 then .error .NotFound else .ok (st.owners tokenId)

/-- ERC-721 `isApprovedForAll(owner, operator)`: a pure map read. -/
def isApprovedForAll (st : Registry) (owner op : Address) : Bool :=
  st.operatorApprovals owner op

/-- `register(tokenURI_)`: requires a non-empty URI, then mints
`agentId = _nextAgentId++` to the caller and stores the URI.
The `require(bytes(tokenURI_).length > 0)` guard is the empty-string test.
`_safeMint` additionally rejects minting to the zero address — `msg.sender`
is never `address(0)` on the EVM, but the guard is kept — and rejects an
already-minted id (impossible in reachable states, see `goodState_execTrace`).
Returns the assigned id together with the new storage. -/
def register (st : Registry) (caller : Address) (uri : String) :
    Except RegErr (Nat × Registry) :=
  if uri = "" then .error .ValidationError
  else if caller = 0 then .error .InvalidReceiver
  else if st.owners st.nextAgentId ≠ 0 then .error .InvalidReceiver
  else
    .ok (st.nextAgentId,
      { st with
        nextAgentId := st.nextAgentId + 1
        owners := fun i => if i = st.nextAgentId then caller else st.owners i
        tokenURIs := fun i =>
          if i = st.nextAgentId then uri else st.tokenURIs i })

/-- `setAgentURI(agentId, newURI)`: the source first evaluates
`ownerOf(agentId) == msg.sender || isApprovedForAll(ownerOf(agentId),
msg.sender) || getApproved(agentId) == msg.sender` (so a nonexistent id
reverts `NotFound` before anything else), then requires the new URI to be
non-empty, then overwrites the stored URI. -/
def setAgentURI (st : Registry) (caller : Address) (agentId : Nat)
    (newURI : String) : Except RegErr Registry :=
  if st.owners agentId = 0 then .error .NotFound
  else if caller = st.owners agentId ∨
      isApprovedForAll st (st.owners agentId) caller = true ∨
      st.tokenApprovals agentId = caller then
    if newURI = "" then .error .ValidationError
    else .ok { st with
      tokenURIs := fun i => if i = agentId then newURI else st.tokenURIs i }
  else .error .PermissionDenied

/-- `setMetadata(agentId, key, value)`: requires
`ownerOf(agentId) == msg.sender || isApprovedForAll(ownerOf(agentId),
msg.sender)` — note `getApproved` is *not* consulted here — then overwrites
`_metadata[agentId][key]`. -/
def setMetadata (st : Registry) (caller : Address) (agentId : Nat)
    (key : String) (value : Bytes) : Except RegErr Registry :=
  if st.owners agentId = 0 then .error .NotFound
  else if caller = st.owners agentId ∨
      isApprovedForAll st (st.owners agentId) caller = true then
    .ok { st with
      metadata := fun i k =>
        if i = agentId then
          if k = key then value else st.metadata i k
        else st.metadata i k }
  else .error .PermissionDenied

/-- `getMetadata(agentId, key)`: the source body is exactly
`return _metadata[agentId][key];` — a bare mapping read with no existence
check on `agentId` and no revert path. -/
def getMetadata (st : Registry) (agentId : Nat) (key : String) : Bytes :=
  st.metadata agentId key

/-- The observable result of an external `getMetadata` call: the view
function has no revert path, so the call always returns `getMetadata`. -/
def getMetadataCall (st : Registry) (agentId : Nat) (key : String) :
    Except RegErr Bytes :=
  .ok (getMetadata st agentId key)

/-- Written from the spec's words, for comparison with `getMetadataCall`:
"returns the empty value when unset; never fails for a missing key (only
fails with `NotFound` if `id` itself does not exist)". -/
def getMetadataSpec (st : Registry) (agentId : Nat) (key : String) :
    Except RegErr Bytes :=
  if st.owners agentId = 0 then .error .NotFound
  else .ok (st.metadata agentId key)

/-- Modelled from the spec: the ownership-transfer path of the registry is
the inherited OpenZeppelin `ERC721.transferFrom`, whose body is not under
`src/` (only the repository's tests call it).  Spec §4.1
`transferOwnership(id, newOwner)`: requires the caller to be the current
owner, the `singleApproved` delegate, or a member of
`operatorForAll[currentOwner]`; effects are `owner = newOwner` and
`singleApproved` cleared, with `operatorForAll` untouched.  ERC-721
additionally rejects a transfer to the zero address, of a nonexistent
token, and a `from` that is not the current owner. -/
def transferFrom (st : Registry) (caller fromAddr toAddr : Address)
    (tokenId : Nat) : Except RegErr Registry :=
  if toAddr = 0 then .error .InvalidReceiver
  else if st.owners tokenId = 0 then .error .NotFound
  else if caller = st.owners tokenId ∨
      isApprovedForAll st (st.owners tokenId) caller = true ∨
      st.tokenApprovals tokenId = caller then
    if st.owners tokenId = fromAddr then
      .ok { st with
        owners := fun i => if i = tokenId then toAddr else st.owners i
        tokenApprovals := fun i =>
          if i = tokenId then 0 else st.tokenApprovals i }
    else .error .PermissionDenied
  else .error .PermissionDenied

/-- Modelled from the spec: ERC-721 `approve(to, tokenId)` sets the single
`singleApproved` delegate of a record; the caller must be the owner or one
of the owner's `operatorForAll` members, and a nonexistent token reverts. -/
def approve (st : Registry) (caller toAddr : Address) (tokenId : Nat) :
    Except RegErr Registry :=
  if st.owners tokenId = 0 then .error .NotFound
  else if caller = st.owners tokenId ∨
      isApprovedForAll st (st.owners tokenId) caller = true then
    .ok { st with
      tokenApprovals := fun i =>
        if i = tokenId then toAddr else st.tokenApprovals i }
  else .error .PermissionDenied

/-- Modelled from the spec: ERC-721 `setApprovalForAll(operator, approved)`
updates `operatorForAll[caller]`; the zero address is not a valid
operator. -/
def setApprovalForAll (st : Registry) (caller op : Address)
    (approved : Bool) : Except RegErr Registry :=
  if op = 0 then .error .InvalidReceiver
  else .ok { st with
    operatorApprovals := fun o c =>
      if o = caller then
        if c = op then approved else st.operatorApprovals o c
      else st.operatorApprovals o c }

/-- One external call into the registry. -/
inductive Op
  | register (caller : Address) (uri : String)
  | setAgentURI (caller : Address) (agentId : Nat) (uri : String)
  | setMetadata (caller : Address) (agentId : Nat) (key : String)
      (value : Bytes)
  | transferFrom (caller fromAddr toAddr : Address) (tokenId : Nat)
  | approve (caller toAddr : Address) (tokenId : Nat)
  | setApprovalForAll (caller op : Address) (approved : Bool)

/-- EVM revert semantics: a failed call leaves the storage unchanged. -/
def orKeep (st : Registry) : Except RegErr Registry → Registry
  | .ok st' => st'
  | .error _ => st

/-- Apply one external call to the storage, with revert semantics. -/
def applyOp (st : Registry) : Op → Registry
  | .register c u =>
      match register st c u with
      | .ok x => x.2
      | .error _ => st
  | .setAgentURI c i u => orKeep st (setAgentURI st c i u)
  | .setMetadata c i k v => orKeep st (setMetadata st c i k v)
  | .transferFrom c f t i => orKeep st (transferFrom st c f t i)
  | .approve c t i => orKeep st (approve st c t i)
  | .setApprovalForAll c o b => orKeep st (setApprovalForAll st c o b)

/-- The storage reached from the constructor by a sequence of external
calls. -/
def execTrace (ops : List Op) : Registry :=
  ops.foldl applyOp Registry.init

/-- The inductive invariant of the registry storage: minted records have
non-empty URIs, ids at or above the counter are unminted, and the counter
starts at 1. -/
def GoodState (st : Registry) : Prop :=
  (∀ id, st.owners id ≠ 0 → st.tokenURIs id ≠ "") ∧
  (∀ id, st.nextAgentId ≤ id → st.owners id = 0) ∧
  1 ≤ st.nextAgentId

/-- `true` iff the call writes the metadata entry `(agentId, key)`. -/
def writesMeta (o : Op) (agentId : Nat) (key : String) : Bool :=
  match o with
  | .setMetadata _ i k _ => i = agentId && k = key
  | _ => false

end ERC8004

namespace Updater

/-!
The backend auto-updater (`updaterService.ts`).  The service is
initialized once at startup; when configured it installs a cron job and a
delayed warm-up run, each of which calls the `async` function
`updateTokenURI()`.  That function computes a cache-busted URI from the
wall clock, queries fees, submits `setAgentURI` and awaits confirmation,
with the whole body wrapped in `try/catch`.  The external transport
(provider and registry contract) is modelled as an oracle giving the
outcome of each awaited call.
-/

/-- Failure causes inside one refresh cycle. -/
inductive TxError
  | feeQueryFailure
  | submitFailure
  | confirmFailure
  deriving DecidableEq

/-- The transport behavior for one cycle: the outcome of
`provider.getFeeData()` (a gas price), of `registry.setAgentURI(...)`
(a submitted transaction handle) given the URI sent, and of `tx.wait()`
(a confirmation block number) given that handle. -/
structure Transport where
  feeData : Except TxError Nat
  submitTx : String → Except TxError Nat
  waitTx : Nat → Except TxError Nat

/-- Decimal digits of `n`, most significant first, by fuelled recursion
(`[]` for `0`). -/
def decDigitsCore : Nat → Nat → List Nat
  | 0, _ => []
  | fuel + 1, n =>
      if n = 0 then [] else decDigitsCore fuel (n / 10) ++ [n % 10]

/-- Decimal digits of `n`, most significant first; `[0]` for `0`. -/
def digitsOf (n : Nat) : List Nat :=
  if n = 0 then [0] else decDigitsCore (n + 1) n

/-- Decimal string of a natural number, modelling the JS number-to-string
conversion inside the template literal. -/
def decimalString (n : Nat) : String :=
  ((digitsOf n).map Nat.digitChar).asString

/-- Recombine a digit list into the number it denotes. -/
def ofDigits (l : List Nat) : Nat :=
  l.foldl (fun a d => 10 * a + d) 0

/-- The cache-busting token: `Math.floor(Date.now() / 1000)`, i.e. the
wall-clock second count; `nowMs` is `Date.now()` in milliseconds. -/
def version (nowMs : Nat) : Nat :=
  nowMs / 1000

/-- The refreshed pointer value:
`${config.baseUrl}/erc8004/metadata?v=${version}`. -/
def newURI (baseUrl : String) (nowMs : Nat) : String :=
  baseUrl ++ "/erc8004/metadata?v=" ++ decimalString (version nowMs)

/-- Outcome of one `updateTokenURI` call as seen by its caller: the whole
body sits inside `try/catch` whose catch arm only logs, so the call always
resolves — either with a confirmation or with a logged failure, never with
an exception. -/
inductive CycleResult
  | confirmed (blockNum : Nat)
  | loggedFailure (e : TxError)
  deriving DecidableEq

/-- The `try` body of `updateTokenURI`: compute the cache-busted URI,
await the fee query, await the submission of `setAgentURI(agentId, newURI,
{gasLimit: 100000})`, then await `tx.wait()`. -/
def updateAttempt (baseUrl : String) (nowMs : Nat) (tp : Transport) :
    Except TxError Nat := do
  let uri := newURI baseUrl nowMs
  let _gasPrice ← tp.feeData
  let tx ← tp.submitTx uri
  tp.waitTx tx

/-- `updateTokenURI`: `updateAttempt` under the `try/catch`; any error is
caught and logged ("Don't crash the server — just log and retry next
interval"). -/
def updateTokenURI (baseUrl : String) (nowMs : Nat) (tp : Transport) :
    CycleResult :=
  match updateAttempt baseUrl nowMs tp with
  | .ok b => .confirmed b
  | .error e => .loggedFailure e

/-- The outcomes of a sequence of scheduled cycles: the cron job calls
`updateTokenURI` afresh at each firing, carrying no state from one cycle
to the next. -/
def runSchedule (baseUrl : String) (cycles : List (Nat × Transport)) :
    List CycleResult :=
  cycles.map fun c => updateTokenURI baseUrl c.1 c.2

/-- `triggerUpdate` (the manual trigger): returns early with
`"Updater not configured"` when `registry` was never initialized,
otherwise awaits `updateTokenURI()` — discarding its outcome — and
resolves with `"Update triggered"`. -/
def triggerUpdate (configured : Bool) (baseUrl : String) (nowMs : Nat)
    (tp : Transport) : String :=
  if configured then
    let _ := updateTokenURI baseUrl nowMs tp
    "Update triggered"
  else "Updater not configured"

/-- State of the updater process: whether `initUpdater` found both
credentials and installed the timers, and how many `updateTokenURI`
invocations are currently in flight (started but not yet resolved — the
function suspends at its `await` points: fee query, submission,
confirmation). -/
structure SchedulerState where
  configured : Bool
  inFlight : Nat
  deriving DecidableEq

/-- Events of the updater: a recurring cron firing, a manual
`triggerUpdate` call, and the resolution of one in-flight invocation. -/
inductive SchedulerEvent
  | cronTick
  | manualTrigger
  | finish
  deriving DecidableEq

/-- One step of the updater.  The cron callback
(`async () => { await updateTokenURI(); }`) and `triggerUpdate` both call
`updateTokenURI()` unconditionally — the source keeps no in-flight flag —
so every trigger that arrives while configured starts a new invocation;
`finish` is one invocation resolving (confirmed or logged failure). -/
def schedStep (s : SchedulerState) : SchedulerEvent → SchedulerState
  | .cronTick =>
      if s.configured then { s with inFlight := s.inFlight + 1 } else s
  | .manualTrigger =>
      if s.configured then { s with inFlight := s.inFlight + 1 } else s
  | .finish => { s with inFlight := s.inFlight - 1 }

/-- Run the updater over a list of events. -/
def runSched (s : SchedulerState) (evs : List SchedulerEvent) :
    SchedulerState :=
  evs.foldl schedStep s

/-- `true` for the two kinds of refresh triggers. -/
def isTrigger : SchedulerEvent → Bool
  | .cronTick => true
  | .manualTrigger => true
  | .finish => false

/-- A sample transport whose fee query fails. -/
def tpFeeFail : Transport where
  feeData := .error .feeQueryFailure
  submitTx := fun _ => .ok 0
  waitTx := fun _ => .ok 0

/-- A sample transport where every awaited call succeeds. -/
def tpAllOk : Transport where
  feeData := .ok 1
  submitTx := fun _ => .ok 7
  waitTx := fun _ => .ok 42

end Updater

namespace ERC8004

theorem goodState_init : GoodState Registry.init := by
  refine ⟨fun id h => absurd rfl h, fun id _ => rfl, le_refl 1⟩

theorem ownerOf_ok {st : Registry} {tokenId : Nat} {owner : Address}
    (h : ownerOf st tokenId = .ok owner) :
    st.owners tokenId = owner ∧ owner ≠ 0 := by
  unfold ownerOf at h
  split at h
  · cases h
  · cases h
    exact ⟨rfl, by assumption⟩

theorem register_ok {st st' : Registry} {caller : Address} {uri : String}
    {n : Nat} (h : register st caller uri = .ok (n, st')) :
    uri ≠ "" ∧ caller ≠ 0 ∧ st.owners st.nextAgentId = 0 ∧
      n = st.nextAgentId ∧
      st' = { st with
        nextAgentId := st.nextAgentId + 1
        owners := fun i => if i = st.nextAgentId then caller else st.owners i
        tokenURIs := fun i =>
          if i = st.nextAgentId then uri else st.tokenURIs i } := by
  unfold register at h
  split at h
  · cases h
  · split at h
    · cases h
    · split at h
      · cases h
      · cases h
        exact ⟨by assumption, by assumption, not_ne_iff.mp (by assumption),
          rfl, rfl⟩

theorem setAgentURI_ok {st st' : Registry} {caller : Address} {agentId : Nat}
    {uri : String} (h : setAgentURI st caller agentId uri = .ok st') :
    uri ≠ "" ∧ st.owners agentId ≠ 0 ∧
      st' = { st with
        tokenURIs := fun i =>
          if i = agentId then uri else st.tokenURIs i } := by
  unfold setAgentURI at h
  split at h
  · cases h
  · split at h
    · split at h
      · cases h
      · cases h
        exact ⟨by assumption, by assumption, rfl⟩
    · cases h

theorem setMetadata_ok {st st' : Registry} {caller : Address} {agentId : Nat}
    {key : String} {value : Bytes}
    (h : setMetadata st caller agentId key value = .ok st') :
    st' = { st with
      metadata := fun i k =>
        if i = agentId then
          if k = key then value else st.metadata i k
        else st.metadata i k } := by
  unfold setMetadata at h
  split at h
  · cases h
  · split at h
    · cases h; rfl
    · cases h

theorem transferFrom_ok {st st' : Registry} {caller fromAddr toAddr : Address}
    {tokenId : Nat} (h : transferFrom st caller fromAddr toAddr tokenId = .ok st') :
    toAddr ≠ 0 ∧ st.owners tokenId ≠ 0 ∧ st.owners tokenId = fromAddr ∧
      (caller = st.owners tokenId ∨
        isApprovedForAll st (st.owners tokenId) caller = true ∨
        st.tokenApprovals tokenId = caller) ∧
      st' = { st with
        owners := fun i => if i = tokenId then toAddr else st.owners i
        tokenApprovals := fun i =>
          if i = tokenId then 0 else st.tokenApprovals i } := by
  unfold transferFrom at h
  split at h
  · cases h
  · split at h
    · cases h
    · split at h
      · split at h
        · cases h
          exact ⟨by assumption, by assumption, by assumption,
            by assumption, rfl⟩
        · cases h
      · cases h

theorem approve_ok {st st' : Registry} {caller toAddr : Address}
    {tokenId : Nat} (h : approve st caller toAddr tokenId = .ok st') :
    st' = { st with
      tokenApprovals := fun i =>
        if i = tokenId then toAddr else st.tokenApprovals i } := by
  unfold approve at h
  split at h
  · cases h
  · split at h
    · cases h; rfl
    · cases h

theorem setApprovalForAll_ok {st st' : Registry} {caller op : Address}
    {approved : Bool} (h : setApprovalForAll st caller op approved = .ok st') :
    st' = { st with
      operatorApprovals := fun o c =>
        if o = caller then
          if c = op then approved else st.operatorApprovals o c
        else st.operatorApprovals o c } := by
  unfold setApprovalForAll at h
  split at h
  · cases h
  · cases h; rfl

theorem goodState_applyOp {st : Registry} (h : GoodState st) (o : Op) :
    GoodState (applyOp st o) := by
  obtain ⟨huri, hfresh, hone⟩ := h
  cases o with
  | register c u =>
    simp only [applyOp]
    cases hr : register st c u with
    | error e => exact ⟨huri, hfresh, hone⟩
    | ok x =>
      obtain ⟨n, st'⟩ := x
      obtain ⟨hu, hc, hfree, hn, hst⟩ := register_ok hr
      subst hst
      refine ⟨?_, ?_, le_trans hone (Nat.le_succ _)⟩
      · intro id
        try dsimp only [orKeep]
        intro hid
        by_cases hi : id = st.nextAgentId
        · rw [if_pos hi]; exact hu
        · rw [if_neg hi] at hid ⊢
          exact huri id hid
      · intro id
        try dsimp only [orKeep]
        intro hid
        have hi : ¬ id = st.nextAgentId := by omega
        rw [if_neg hi]
        exact hfresh id (by omega)
  | setAgentURI c i u =>
    simp only [applyOp]
    cases hr : setAgentURI st c i u with
    | error e => exact ⟨huri, hfresh, hone⟩
    | ok st' =>
      obtain ⟨hu, hex, hst⟩ := setAgentURI_ok hr
      subst hst
      refine ⟨?_, hfresh, hone⟩
      intro id
      try dsimp only [orKeep]
      intro hid
      by_cases hi : id = i
      · rw [if_pos hi]; exact hu
      · rw [if_neg hi]
        exact huri id hid
  | setMetadata c i k v =>
    simp only [applyOp]
    cases hr : setMetadata st c i k v with
    | error e => exact ⟨huri, hfresh, hone⟩
    | ok st' =>
      rw [setMetadata_ok hr]
      exact ⟨huri, hfresh, hone⟩
  | transferFrom c f t i =>
    simp only [applyOp]
    cases hr : transferFrom st c f t i with
    | error e => exact ⟨huri, hfresh, hone⟩
    | ok st' =>
      obtain ⟨ht, hex, hfrom, hauth, hst⟩ := transferFrom_ok hr
      subst hst
      refine ⟨?_, ?_, hone⟩
      · intro id
        try dsimp only [orKeep]
        intro hid
        by_cases hi : id = i
        · subst hi; exact huri id hex
        · rw [if_neg hi] at hid
          exact huri id hid
      · intro id
        try dsimp only [orKeep]
        intro hid
        by_cases hi : id = i
        · subst hi
          exact absurd (hfresh id hid) hex
        · rw [if_neg hi]
          exact hfresh id hid
  | approve c t i =>
    simp only [applyOp]
    cases hr : approve st c t i with
    | error e => exact ⟨huri, hfresh, hone⟩
    | ok st' =>
      rw [approve_ok hr]
      exact ⟨huri, hfresh, hone⟩
  | setApprovalForAll c o b =>
    simp only [applyOp]
    cases hr : setApprovalForAll st c o b with
    | error e => exact ⟨huri, hfresh, hone⟩
    | ok st' =>
      rw [setApprovalForAll_ok hr]
      exact ⟨huri, hfresh, hone⟩

theorem goodState_execTrace (ops : List Op) : GoodState (execTrace ops) := by
  suffices h : ∀ st, GoodState st → GoodState (ops.foldl applyOp st) from
    h Registry.init goodState_init
  induction ops with
  | nil => exact fun st h => h
  | cons o rest ih =>
    intro st h
    exact ih (applyOp st o) (goodState_applyOp h o)

theorem applyOp_metadata_untouched {st : Registry} {o : Op} {agentId : Nat}
    {key : String} (h : writesMeta o agentId key = false) :
    (applyOp st o).metadata agentId key = st.metadata agentId key := by
  cases o with
  | register c u =>
    simp only [applyOp]
    cases hr : register st c u with
    | error e => rfl
    | ok x =>
      obtain ⟨n, st'⟩ := x
      obtain ⟨-, -, -, -, hst⟩ := register_ok hr
      subst hst; rfl
  | setAgentURI c i u =>
    simp only [applyOp]
    cases hr : setAgentURI st c i u with
    | error e => rfl
    | ok st' =>
      obtain ⟨-, -, hst⟩ := setAgentURI_ok hr
      subst hst; rfl
  | setMetadata c i k v =>
    simp only [applyOp]
    cases hr : setMetadata st c i k v with
    | error e => rfl
    | ok st' =>
      rw [setMetadata_ok hr]
      simp only [writesMeta, Bool.and_eq_false_iff, decide_eq_false_iff_not]
        at h
      dsimp only [orKeep]
      by_cases hi : agentId = i
      · rw [if_pos hi]
        by_cases hk : key = k
        · exfalso
          rcases h with h | h
          · exact h hi.symm
          · exact h hk.symm
        · rw [if_neg (fun he => hk he)]
      · rw [if_neg hi]
  | transferFrom c f t i =>
    simp only [applyOp]
    cases hr : transferFrom st c f t i with
    | error e => rfl
    | ok st' =>
      obtain ⟨-, -, -, -, hst⟩ := transferFrom_ok hr
      subst hst; rfl
  | approve c t i =>
    simp only [applyOp]
    cases hr : approve st c t i with
    | error e => rfl
    | ok st' =>
      rw [approve_ok hr]; rfl
  | setApprovalForAll c o b =>
    simp only [applyOp]
    cases hr : setApprovalForAll st c o b with
    | error e => rfl
    | ok st' =>
      rw [setApprovalForAll_ok hr]; rfl

theorem foldl_metadata_untouched {agentId : Nat} {key : String} :
    ∀ (ops : List Op) (st : Registry),
      (∀ o ∈ ops, writesMeta o agentId key = false) →
      (ops.foldl applyOp st).metadata agentId key =
        st.metadata agentId key := by
  intro ops
  induction ops with
  | nil => intro st _; rfl
  | cons o rest ih =>
    intro st h
    have h1 : writesMeta o agentId key = false := h o (List.mem_cons_self o rest)
    have h2 : ∀ p ∈ rest, writesMeta p agentId key = false :=
      fun p hp => h p (List.mem_cons_of_mem o hp)
    calc ((o :: rest).foldl applyOp st).metadata agentId key
        = (rest.foldl applyOp (applyOp st o)).metadata agentId key := rfl
      _ = (applyOp st o).metadata agentId key := ih (applyOp st o) h2
      _ = st.metadata agentId key := applyOp_metadata_untouched h1

/-- C1: in every reachable registry state, for every caller (`msg.sender`
is never the zero address on the EVM, hence the `caller ≠ 0` hypothesis)
and every non-empty pointer `p`, `register` succeeds, returns exactly the
id that the `nextAgentId` counter held immediately before the call, makes
the caller the owner of the new record, stores `p` as its pointer, and
leaves the counter exactly one higher than before. -/
theorem register_assigns_prior_nextId (ops : List Op) (caller : Address)
    (p : String) (hp : p ≠ "") (hc : caller ≠ 0) :
    ∃ st', register (execTrace ops) caller p =
        .ok ((execTrace ops).nextAgentId, st') ∧
      st'.owners (execTrace ops).nextAgentId = caller ∧
      st'.tokenURIs (execTrace ops).nextAgentId = p ∧
      st'.nextAgentId = (execTrace ops).nextAgentId + 1 := by
  obtain ⟨huri, hfresh, hone⟩ := goodState_execTrace ops
  have hfree : (execTrace ops).owners (execTrace ops).nextAgentId = 0 :=
    hfresh _ (le_refl _)
  have hreg : register (execTrace ops) caller p =
      .ok ((execTrace ops).nextAgentId,
        { execTrace ops with
          nextAgentId := (execTrace ops).nextAgentId + 1
          owners := fun i => if i = (execTrace ops).nextAgentId then caller
            else (execTrace ops).owners i
          tokenURIs := fun i => if i = (execTrace ops).nextAgentId then p
            else (execTrace ops).tokenURIs i }) := by
    unfold register
    rw [if_neg hp, if_neg hc, if_neg (not_ne_iff.mpr hfree)]
  refine ⟨_, hreg, ?_, ?_, rfl⟩
  · dsimp only
    rw [if_pos rfl]
  · dsimp only
    rw [if_pos rfl]

/-- Witness for C1 at the initial state, caller `1`, pointer `"A"`. -/
theorem register_assigns_prior_nextId_witness :
    ∃ st', register (execTrace []) 1 "A" =
        .ok ((execTrace []).nextAgentId, st') ∧
      st'.owners (execTrace []).nextAgentId = 1 ∧
      st'.tokenURIs (execTrace []).nextAgentId = "A" ∧
      st'.nextAgentId = (execTrace []).nextAgentId + 1 :=
  register_assigns_prior_nextId [] 1 "A" (by decide) (by decide)

/-- C2: authorization asymmetry.  A caller that is the `singleApproved`
delegate of a record (`getApproved`), but neither its owner nor one of the
owner's `operatorForAll` members, can successfully call `setAgentURI` with
a non-empty URI, while `setMetadata` by the same caller fails with
`PermissionDenied` and leaves the storage (so in particular the metadata
store) unchanged. -/
theorem singleApproved_asymmetry (st : Registry) (agentId : Nat)
    (c : Address) (uri key : String) (value : Bytes)
    (hex : st.owners agentId ≠ 0)
    (happ : st.tokenApprovals agentId = c)
    (hno : c ≠ st.owners agentId)
    (hnop : isApprovedForAll st (st.owners agentId) c = false)
    (huri : uri ≠ "") :
    (∃ st', setAgentURI st c agentId uri = .ok st') ∧
      setMetadata st c agentId key value = .error .PermissionDenied ∧
      applyOp st (.setMetadata c agentId key value) = st := by
  have hmeta : setMetadata st c agentId key value =
      .error .PermissionDenied := by
    unfold setMetadata
    rw [if_neg hex, if_neg ?hna]
    case hna =>
      rintro (h | h)
      · exact hno h
      · rw [hnop] at h; cases h
  have hset : setAgentURI st c agentId uri = .ok { st with
      tokenURIs := fun i => if i = agentId then uri
        else st.tokenURIs i } := by
    unfold setAgentURI
    rw [if_neg hex, if_pos (Or.inr (Or.inr happ)), if_neg huri]
  refine ⟨⟨_, hset⟩, hmeta, ?_⟩
  simp only [applyOp]
  rw [hmeta]
  rfl

/-- Witness for C2: record `1` owned by `1`, caller `2` holding only the
single approval for record `1`. -/
theorem singleApproved_asymmetry_witness :
    (∃ st', setAgentURI (execTrace [.register 1 "A", .approve 1 2 1])
        2 1 "B" = .ok st') ∧
      setMetadata (execTrace [.register 1 "A", .approve 1 2 1])
        2 1 "k" [7] = .error .PermissionDenied ∧
      applyOp (execTrace [.register 1 "A", .approve 1 2 1])
        (.setMetadata 2 1 "k" [7]) =
        execTrace [.register 1 "A", .approve 1 2 1] :=
  singleApproved_asymmetry (execTrace [.register 1 "A", .approve 1 2 1])
    1 2 "B" "k" [7] (by decide) (by decide) (by decide) (by decide)
    (by decide)

/-- C4 counterexample: `getMetadata` never reverts.  In the initial state
record `1` does not exist, yet the external call returns the empty value
`.ok []` instead of failing with `NotFound` as the claim (mirrored by
`getMetadataSpec`) demands. -/
theorem getMetadata_missing_id_returns_empty :
    Registry.init.owners 1 = 0 ∧
    getMetadataCall Registry.init 1 "k" = .ok [] ∧
    getMetadataSpec Registry.init 1 "k" = .error .NotFound ∧
    getMetadataCall Registry.init 1 "k" ≠
      getMetadataSpec Registry.init 1 "k" := by
  refine ⟨rfl, rfl, rfl, ?_⟩
  intro h
  rw [show getMetadataCall Registry.init 1 "k" = .ok [] from rfl,
    show getMetadataSpec Registry.init 1 "k" = .error .NotFound from rfl]
    at h
  cases h

/-- C4 amended: `getMetadata(id, key)` never fails — not for a missing key
and not even for a nonexistent record id — and returns the empty value for
every entry that no successful or failed `setMetadata` call ever wrote,
whether or not the record exists. -/
theorem getMetadata_total_empty_when_unset (ops : List Op) (agentId : Nat)
    (key : String) (h : ∀ o ∈ ops, writesMeta o agentId key = false) :
    getMetadataCall (execTrace ops) agentId key = .ok [] := by
  unfold getMetadataCall getMetadata execTrace
  rw [foldl_metadata_untouched ops Registry.init h]
  rfl

/-- Witness for C4 amended: a trace that registers record `1` but never
writes metadata key `"k"`; reading `(1, "k")` and the nonexistent
`(2, "k")` both yield `.ok []`. -/
theorem getMetadata_total_empty_when_unset_witness :
    getMetadataCall (execTrace [.register 1 "A", .setMetadata 1 1 "other" [1]])
      1 "k" = .ok [] :=
  getMetadata_total_empty_when_unset
    [.register 1 "A", .setMetadata 1 1 "other" [1]] 1 "k" (by decide)

/-- C5: after a successful `transferFrom` of record `agentId` from its
owner `prev` to `x`, the owner is `x` and the single approval is cleared;
hence `setAgentURI`/`setMetadata` by `prev` (who holds no other
capability) fail with `PermissionDenied`, while the same calls by `x`
succeed. -/
theorem transfer_revokes_and_grants (st st' : Registry)
    (caller prev x : Address) (agentId : Nat) (uri key : String)
    (value : Bytes)
    (hprev : st.owners agentId = prev)
    (h : transferFrom st caller prev x agentId = .ok st')
    (hne : prev ≠ x)
    (hnop : isApprovedForAll st x prev = false)
    (huri : uri ≠ "") :
    st'.owners agentId = x ∧
    st'.tokenApprovals agentId = 0 ∧
    setAgentURI st' prev agentId uri = .error .PermissionDenied ∧
    setMetadata st' prev agentId key value = .error .PermissionDenied ∧
    (∃ st'', setAgentURI st' x agentId uri = .ok st'') ∧
    (∃ st'', setMetadata st' x agentId key value = .ok st'') := by
  obtain ⟨hx0, hex, -, -, hst⟩ := transferFrom_ok h
  have hprev0 : prev ≠ 0 := fun hz => hex (hprev.trans hz)
  subst hst
  have hown : ({ st with
      owners := fun i => if i = agentId then x else st.owners i
      tokenApprovals := fun i =>
        if i = agentId then 0 else st.tokenApprovals i } :
      Registry).owners agentId = x := by
    dsimp only; rw [if_pos rfl]
  have happ0 : ({ st with
      owners := fun i => if i = agentId then x else st.owners i
      tokenApprovals := fun i =>
        if i = agentId then 0 else st.tokenApprovals i } :
      Registry).tokenApprovals agentId = 0 := by
    dsimp only; rw [if_pos rfl]
  have hnoauth : ¬ (prev = x ∨
      st.operatorApprovals x prev = true ∨ (0 : Address) = prev) := by
    rintro (hh | hh | hh)
    · exact hne hh
    · rw [show st.operatorApprovals x prev = false from hnop] at hh
      cases hh
    · exact hprev0 hh.symm
  have hgrantURI : ∃ st'', setAgentURI ({ st with
      owners := fun i => if i = agentId then x else st.owners i
      tokenApprovals := fun i =>
        if i = agentId then 0 else st.tokenApprovals i } : Registry)
      x agentId uri = .ok st'' := by
    refine ⟨{ st with
      owners := fun i => if i = agentId then x else st.owners i
      tokenApprovals := fun i =>
        if i = agentId then 0 else st.tokenApprovals i
      tokenURIs := fun i => if i = agentId then uri
        else st.tokenURIs i }, ?_⟩
    unfold setAgentURI
    rw [hown]
    rw [if_neg (fun hz => hx0 hz), if_pos (Or.inl rfl), if_neg huri]
  have hgrantMeta : ∃ st'', setMetadata ({ st with
      owners := fun i => if i = agentId then x else st.owners i
      tokenApprovals := fun i =>
        if i = agentId then 0 else st.tokenApprovals i } : Registry)
      x agentId key value = .ok st'' := by
    refine ⟨{ st with
      owners := fun i => if i = agentId then x else st.owners i
      tokenApprovals := fun i =>
        if i = agentId then 0 else st.tokenApprovals i
      metadata := fun i k =>
        if i = agentId then
          if k = key then value else st.metadata i k
        else st.metadata i k }, ?_⟩
    unfold setMetadata
    rw [hown]
    rw [if_neg (fun hz => hx0 hz), if_pos (Or.inl rfl)]
  refine ⟨hown, happ0, ?_, ?_, hgrantURI, hgrantMeta⟩
  · unfold setAgentURI
    rw [hown, happ0]
    rw [if_neg (fun hz => hx0 hz), if_neg ?hna1]
    case hna1 =>
      rintro (hh | hh | hh)
      · exact hne hh
      · exact hnoauth (Or.inr (Or.inl hh))
      · exact hnoauth (Or.inr (Or.inr hh))
  · unfold setMetadata
    rw [hown]
    rw [if_neg (fun hz => hx0 hz), if_neg ?hna2]
    case hna2 =>
      rintro (hh | hh)
      · exact hne hh
      · exact hnoauth (Or.inr (Or.inl hh))

/-- Witness for C5: record `1` minted by `1`, transferred to `2`. -/
theorem transfer_revokes_and_grants_witness :
    (execTrace [.register 1 "A", .transferFrom 1 1 2 1]).owners 1 = 2 ∧
    (execTrace [.register 1 "A",
      .transferFrom 1 1 2 1]).tokenApprovals 1 = 0 ∧
    setAgentURI (execTrace [.register 1 "A", .transferFrom 1 1 2 1])
      1 1 "B" = .error .PermissionDenied ∧
    setMetadata (execTrace [.register 1 "A", .transferFrom 1 1 2 1])
      1 1 "k" [7] = .error .PermissionDenied ∧
    (∃ st'', setAgentURI (execTrace [.register 1 "A",
      .transferFrom 1 1 2 1]) 2 1 "B" = .ok st'') ∧
    (∃ st'', setMetadata (execTrace [.register 1 "A",
      .transferFrom 1 1 2 1]) 2 1 "k" [7] = .ok st'') :=
  transfer_revokes_and_grants (execTrace [.register 1 "A"])
    (execTrace [.register 1 "A", .transferFrom 1 1 2 1]) 1 1 2 1 "B" "k"
    [7] (by decide) rfl (by decide) (by decide) (by decide)

/-- C7: a successful ownership transfer does not modify the metadata
store: every `getMetadata` read returns the same value after the transfer
as before, so the new owner inherits all previously set key/value
pairs. -/
theorem transfer_preserves_metadata (st st' : Registry)
    (caller fromAddr toAddr : Address) (tokenId agentId : Nat)
    (key : String)
    (h : transferFrom st caller fromAddr toAddr tokenId = .ok st') :
    getMetadata st' agentId key = getMetadata st agentId key := by
  obtain ⟨-, -, -, -, hst⟩ := transferFrom_ok h
  subst hst
  rfl

/-- Witness for C7: metadata written before the transfer reads back
unchanged after it. -/
theorem transfer_preserves_metadata_witness :
    getMetadata (execTrace [.register 1 "A", .setMetadata 1 1 "k" [7],
      .transferFrom 1 1 2 1]) 1 "k" =
    getMetadata (execTrace [.register 1 "A", .setMetadata 1 1 "k" [7]])
      1 "k" :=
  transfer_preserves_metadata
    (execTrace [.register 1 "A", .setMetadata 1 1 "k" [7]])
    (execTrace [.register 1 "A", .setMetadata 1 1 "k" [7],
      .transferFrom 1 1 2 1]) 1 1 2 1 1 "k" rfl

/-- C6 counterexample: an empty-URI update does not always fail with
`ValidationError` — the source checks authorization first, so an
unauthorized caller passing an empty URI gets `PermissionDenied`. -/
theorem empty_uri_update_permission_denied :
    setAgentURI (execTrace [.register 1 "A"]) 2 1 "" =
      .error .PermissionDenied ∧
    setAgentURI (execTrace [.register 1 "A"]) 2 1 "" ≠
      .error .ValidationError := by
  refine ⟨rfl, ?_⟩
  intro h
  rw [show setAgentURI (execTrace [.register 1 "A"]) 2 1 "" =
    .error .PermissionDenied from rfl] at h
  cases h

/-- C6 amended: `register` with an empty pointer fails with
`ValidationError` and leaves the store unchanged; `setAgentURI` with an
empty value always fails (with `ValidationError` when the record exists
and the caller is authorized, otherwise with the existence/authorization
error) and leaves the store unchanged; consequently every record of every
reachable state has a non-empty pointer. -/
theorem pointer_never_empty (ops : List Op) (st : Registry)
    (caller : Address) (agentId id : Nat) :
    register st caller "" = .error .ValidationError ∧
    applyOp st (.register caller "") = st ∧
    (∃ e, setAgentURI st caller agentId "" = .error e) ∧
    applyOp st (.setAgentURI caller agentId "") = st ∧
    (st.owners agentId ≠ 0 →
      (caller = st.owners agentId ∨
        isApprovedForAll st (st.owners agentId) caller = true ∨
        st.tokenApprovals agentId = caller) →
      setAgentURI st caller agentId "" = .error .ValidationError) ∧
    ((execTrace ops).owners id ≠ 0 → (execTrace ops).tokenURIs id ≠ "") := by
  have hempty : ∃ e, setAgentURI st caller agentId "" = .error e := by
    unfold setAgentURI
    split
    · exact ⟨_, rfl⟩
    · split
      · rw [if_pos rfl]
        exact ⟨_, rfl⟩
      · exact ⟨_, rfl⟩
  refine ⟨rfl, rfl, hempty, ?_, ?_, (goodState_execTrace ops).1 id⟩
  · obtain ⟨e, he⟩ := hempty
    simp only [applyOp]
    rw [he]
    rfl
  · intro hex hauth
    unfold setAgentURI
    rw [if_neg hex, if_pos hauth, if_pos rfl]

/-- Witness for C6 amended: the record minted by `register 1 "A"` has the
non-empty pointer `"A"`, and the empty-URI operations at that state
fail as stated. -/
theorem pointer_never_empty_witness :
    (execTrace [.register 1 "A"]).owners 1 ≠ 0 ∧
    (execTrace [.register 1 "A"]).tokenURIs 1 ≠ "" :=
  ⟨by decide,
    (pointer_never_empty [.register 1 "A"] Registry.init 1 1 1).2.2.2.2.2
      (by decide)⟩

end ERC8004

namespace Updater

theorem ofDigits_append_digit (l : List Nat) (d : Nat) :
    ofDigits (l ++ [d]) = 10 * ofDigits l + d := by
  unfold ofDigits
  rw [List.foldl_append]
  rfl

theorem ofDigits_decDigitsCore :
    ∀ fuel n, n ≤ fuel → ofDigits (decDigitsCore fuel n) = n := by
  intro fuel
  induction fuel with
  | zero =>
    intro n hn
    have h0 : n = 0 := Nat.le_zero.mp hn
    subst h0
    rfl
  | succ fuel ih =>
    intro n hn
    by_cases h0 : n = 0
    · subst h0
      rfl
    · have hlt : n / 10 < n := Nat.div_lt_self (Nat.pos_of_ne_zero h0)
        (by norm_num)
      rw [show decDigitsCore (fuel + 1) n =
        decDigitsCore fuel (n / 10) ++ [n % 10] from by
          rw [decDigitsCore, if_neg h0]]
      rw [ofDigits_append_digit, ih (n / 10) (by omega)]
      omega

theorem decDigitsCore_lt :
    ∀ fuel n d, d ∈ decDigitsCore fuel n → d < 10 := by
  intro fuel
  induction fuel with
  | zero =>
    intro n d hd
    cases hd
  | succ fuel ih =>
    intro n d hd
    by_cases h0 : n = 0
    · subst h0
      cases hd
    · rw [show decDigitsCore (fuel + 1) n =
        decDigitsCore fuel (n / 10) ++ [n % 10] from by
          rw [decDigitsCore, if_neg h0]] at hd
      rcases List.mem_append.mp hd with h | h
      · exact ih (n / 10) d h
      · rw [List.mem_singleton.mp h]
        exact Nat.mod_lt _ (by norm_num)

theorem ofDigits_digitsOf (n : Nat) : ofDigits (digitsOf n) = n := by
  unfold digitsOf
  by_cases h0 : n = 0
  · subst h0
    rfl
  · rw [if_neg h0]
    exact ofDigits_decDigitsCore (n + 1) n (Nat.le_succ n)

theorem digitsOf_lt (n d : Nat) (hd : d ∈ digitsOf n) : d < 10 := by
  unfold digitsOf at hd
  by_cases h0 : n = 0
  · rw [if_pos h0] at hd
    rw [List.mem_singleton.mp hd]
    norm_num
  · rw [if_neg h0] at hd
    exact decDigitsCore_lt (n + 1) n d hd

theorem digitsOf_inj {a b : Nat} (h : digitsOf a = digitsOf b) : a = b := by
  rw [← ofDigits_digitsOf a, ← ofDigits_digitsOf b, h]

theorem digitChar_inj_lt :
    ∀ a < 10, ∀ b < 10, Nat.digitChar a = Nat.digitChar b → a = b := by
  decide

theorem map_digitChar_inj :
    ∀ l1 l2 : List Nat, (∀ d ∈ l1, d < 10) → (∀ d ∈ l2, d < 10) →
      l1.map Nat.digitChar = l2.map Nat.digitChar → l1 = l2 := by
  intro l1
  induction l1 with
  | nil =>
    intro l2 _ _ h
    cases l2 with
    | nil => rfl
    | cons b t2 => cases h
  | cons a t ih =>
    intro l2 h1 h2 h
    cases l2 with
    | nil => cases h
    | cons b t2 =>
      rw [List.map_cons, List.map_cons] at h
      have hab : Nat.digitChar a = Nat.digitChar b :=
        (List.cons.injEq _ _ _ _ ▸ h).1
      have htl : t.map Nat.digitChar = t2.map Nat.digitChar :=
        (List.cons.injEq _ _ _ _ ▸ h).2
      have ha : a < 10 := h1 a (List.mem_cons_self a t)
      have hb : b < 10 := h2 b (List.mem_cons_self b t2)
      rw [digitChar_inj_lt a ha b hb hab,
        ih t2 (fun d hd => h1 d (List.mem_cons_of_mem a hd))
          (fun d hd => h2 d (List.mem_cons_of_mem b hd)) htl]

theorem decimalString_inj {a b : Nat}
    (h : decimalString a = decimalString b) : a = b := by
  unfold decimalString at h
  have hdata : (digitsOf a).map Nat.digitChar =
      (digitsOf b).map Nat.digitChar := by
    have := congrArg String.data h
    simpa [List.asString] using this
  exact digitsOf_inj (map_digitChar_inj _ _
    (fun d hd => digitsOf_lt a d hd) (fun d hd => digitsOf_lt b d hd)
    hdata)

theorem string_data_append (a b : String) :
    (a ++ b).data = a.data ++ b.data := rfl

theorem newURI_inj (baseUrl : String) {t1 t2 : Nat}
    (h : newURI baseUrl t1 = newURI baseUrl t2) :
    version t1 = version t2 := by
  unfold newURI at h
  have hdata := congrArg String.data h
  rw [string_data_append, string_data_append, string_data_append,
    string_data_append] at hdata
  have hsfx : (decimalString (version t1)).data =
      (decimalString (version t2)).data :=
    List.append_cancel_left hdata
  have hs : decimalString (version t1) = decimalString (version t2) := by
    cases hc1 : decimalString (version t1) with
    | mk d1 =>
      cases hc2 : decimalString (version t2) with
      | mk d2 =>
        rw [hc1, hc2] at hsfx
        exact congrArg String.mk (by simpa using hsfx)
  exact decimalString_inj hs

/-- C3 counterexample: in the model of `updaterService.ts` a cron tick and
an overlapping manual trigger leave two refresh invocations concurrently
in flight — not the single in-flight submission the claim requires. -/
theorem overlapping_triggers_not_single_flight :
    (runSched ⟨true, 0⟩ [.cronTick, .manualTrigger]).inFlight = 2 ∧
    (runSched ⟨true, 0⟩ [.cronTick, .manualTrigger]).inFlight ≠ 1 := by
  exact ⟨rfl, by decide⟩

/-- C3 amended: the service has no single-flight guard at all: while the
updater is configured, every trigger — recurring tick or manual — starts
its own refresh invocation, so `n` triggers with no intervening completion
leave `n` submissions concurrently in flight. -/
theorem every_trigger_starts_new_submission (s : SchedulerState)
    (evs : List SchedulerEvent) (hc : s.configured = true)
    (ht : ∀ e ∈ evs, isTrigger e = true) :
    (runSched s evs).inFlight = s.inFlight + evs.length := by
  induction evs generalizing s with
  | nil => rfl
  | cons e rest ih =>
    have hrest : ∀ p ∈ rest, isTrigger p = true :=
      fun p hp => ht p (List.mem_cons_of_mem e hp)
    have hstep : runSched s (e :: rest) = runSched (schedStep s e) rest :=
      rfl
    cases e with
    | finish =>
      have := ht .finish (List.mem_cons_self _ rest)
      cases this
    | cronTick =>
      rw [hstep, show schedStep s .cronTick =
          { s with inFlight := s.inFlight + 1 } from by
        unfold schedStep
        rw [if_pos hc]]
      rw [ih { s with inFlight := s.inFlight + 1 } hc hrest]
      simp only [List.length_cons]
      omega
    | manualTrigger =>
      rw [hstep, show schedStep s .manualTrigger =
          { s with inFlight := s.inFlight + 1 } from by
        unfold schedStep
        rw [if_pos hc]]
      rw [ih { s with inFlight := s.inFlight + 1 } hc hrest]
      simp only [List.length_cons]
      omega

/-- Witness for C3 amended: two overlapping triggers from an idle
configured state leave two submissions in flight. -/
theorem every_trigger_starts_new_submission_witness :
    (runSched ⟨true, 0⟩ [.cronTick, .manualTrigger]).inFlight =
      (⟨true, 0⟩ : SchedulerState).inFlight +
        ([SchedulerEvent.cronTick, .manualTrigger] : List _).length :=
  every_trigger_starts_new_submission ⟨true, 0⟩
    [.cronTick, .manualTrigger] rfl (by decide)

/-- C8: a failure at any awaited step of a refresh cycle is caught by the
`try/catch` and surfaces only as a logged failure — `updateTokenURI`
always resolves, never raising to its caller — and the surrounding
schedule is unaffected: the cycles before and after a failing cycle each
still perform their own fresh attempt, with outcomes independent of the
failure. -/
theorem failures_absorbed_cycles_independent (baseUrl : String)
    (pre post : List (Nat × Transport)) (t : Nat) (tp : Transport)
    (e : TxError) (hfail : updateAttempt baseUrl t tp = .error e) :
    updateTokenURI baseUrl t tp = .loggedFailure e ∧
    runSchedule baseUrl (pre ++ (t, tp) :: post) =
      runSchedule baseUrl pre ++
        updateTokenURI baseUrl t tp :: runSchedule baseUrl post := by
  constructor
  · unfold updateTokenURI
    rw [hfail]
  · unfold runSchedule
    rw [List.map_append, List.map_cons]

/-- Witness for C8: a cycle whose fee query fails is logged, and the next
scheduled cycle still runs its own fresh (here successful) attempt. -/
theorem failures_absorbed_cycles_independent_witness :
    updateTokenURI "b" 0 tpFeeFail = .loggedFailure .feeQueryFailure ∧
    runSchedule "b" ([] ++ (0, tpFeeFail) :: [(1000, tpAllOk)]) =
      runSchedule "b" [] ++ updateTokenURI "b" 0 tpFeeFail ::
        runSchedule "b" [(1000, tpAllOk)] :=
  failures_absorbed_cycles_independent "b" [] [(1000, tpAllOk)] 0
    tpFeeFail .feeQueryFailure rfl

/-- C9 counterexample: the cache-busting token has second granularity, so
two refreshes 500 ms apart within the same second produce *equal* pointer
values — the later refresh is not distinguishable from the earlier one. -/
theorem same_second_refreshes_equal_pointer :
    (1700000000000 : Nat) < 1700000000500 ∧
    newURI "https://api.surfliquid.com" 1700000000000 =
      newURI "https://api.surfliquid.com" 1700000000500 := by
  exact ⟨by norm_num, rfl⟩

/-- C9 amended: the cache-busting token is the wall-clock second count —
non-decreasing over time rather than strictly increasing — and two
refreshes whose second counts differ always produce distinct pointer
values. -/
theorem refresh_pointer_distinct (baseUrl : String) (t1 t2 : Nat) :
    (t1 ≤ t2 → version t1 ≤ version t2) ∧
    (version t1 ≠ version t2 →
      newURI baseUrl t1 ≠ newURI baseUrl t2) := by
  constructor
  · intro h
    exact Nat.div_le_div_right h
  · intro h hc
    exact h (newURI_inj baseUrl hc)

/-- Witness for C9 amended at times 0 ms and 1000 ms. -/
theorem refresh_pointer_distinct_witness :
    version 0 ≤ version 1000 ∧ newURI "b" 0 ≠ newURI "b" 1000 :=
  ⟨(refresh_pointer_distinct "b" 0 1000).1 (by decide),
    (refresh_pointer_distinct "b" 0 1000).2 (by decide)⟩

/-- C10: once the updater is configured, the manual trigger always
resolves with `"Update triggered"`, whatever the transport does — the
caller cannot distinguish a failed refresh from a successful one by the
returned value. -/
theorem triggerUpdate_result_independent_of_outcome (baseUrl : String)
    (nowMs nowMs' : Nat) (tp tp' : Transport) :
    triggerUpdate true baseUrl nowMs tp = "Update triggered" ∧
    triggerUpdate true baseUrl nowMs tp =
      triggerUpdate true baseUrl nowMs' tp' :=
  ⟨rfl, rfl⟩

end Updater
